import Mathlib

/-!
Verification of the podcite frontend's playback-driven transcription
scheduler, stream-event handling, active-window mapping, extraction
debounce and research queue, shallowly embedded from the TypeScript
sources (`frontend/app/page.tsx`, `frontend/components/TranscriptionDisplay.tsx`,
`frontend/lib/api.ts`).  Components that the specification describes but
whose code is not among the sources (the chunk-index bookkeeping of the
Chunk Scheduler, the progressive trigger, the serial Research Queue
worker) are modelled from the specification text and marked as such.
-/

namespace Podcite

/-- A transcription segment (`TranscriptionSegment` in the sources): a time
interval with its text.  The source field `end` is rendered `stop` because
`end` is a Lean keyword. -/
structure Segment where
  start : ℚ
  stop : ℚ
  text : String
deriving Repr, DecidableEq

/-- A transcription chunk (`TranscriptionChunk` in the sources). -/
structure Chunk where
  chunk_index : Nat
  total_chunks : Nat
  text : String
  segments : List Segment
  error : Option String
deriving Repr, DecidableEq

/-- The transcription state owned by `Home` in `page.tsx`
(`useState({ chunks, error, isTranscribing, completed, stream })`).
The `stream : EventSource | null` field is modelled by `streamOpen`:
whether a live connection is currently held. -/
structure TranscriptionState where
  chunks : List Chunk
  error : Option String
  isTranscribing : Bool
  completed : Bool
  streamOpen : Bool
deriving Repr, DecidableEq

/-- A parsed server-sent event as consumed by `eventSource.onmessage` in
`page.tsx`.  Optional fields model fields that may be absent from the
JSON payload. -/
structure StreamMsg where
  status : Option String
  error : Option String
  chunk_index : Option Nat
  total_chunks : Option Nat
  text : String
  segments : List Segment
deriving Repr, DecidableEq

/-- JavaScript truthiness of a possibly-absent number (`0` and `undefined`
are falsy), as used by the guard `data.chunk_index && data.total_chunks`. -/
def truthyNat : Option Nat → Bool
  | none => false
  | some n => n != 0

/-- JavaScript truthiness of a possibly-absent string (`""` and `undefined`
are falsy), as used by the guard `if (data.error)`. -/
def truthyStr : Option String → Bool
  | none => false
  | some s => s != ""

/-- The chunk record appended by the message handler (`data as
TranscriptionChunk` in `page.tsx`). -/
def StreamMsg.toChunk (m : StreamMsg) : Chunk :=
  { chunk_index := m.chunk_index.getD 0
    total_chunks := m.total_chunks.getD 0
    text := m.text
    segments := m.segments
    error := m.error }

/-- Function `startTranscription` from `page.tsx` (lines 101–174): guarded by
`if (transcription.isTranscribing || transcription.completed || !filename) return;`
then resets the state, opens an `EventSource` and records it.  The returned
boolean reports whether a new stream connection was opened. -/
def startTranscription (filename : String) (s : TranscriptionState) :
    TranscriptionState × Bool :=
  if s.isTranscribing || s.completed || filename = "" then (s, false)
  else
    ({ s with
        isTranscribing := true
        error := none
        chunks := []
        completed := false
        streamOpen := true }, true)

/-- The body of `eventSource.onmessage` in `page.tsx` after a successful
JSON parse: a `completed` status closes the stream and marks completion; a
truthy `error` field records the error and closes the stream; otherwise a
chunk is appended exactly when both `chunk_index` and `total_chunks` are
truthy. -/
def onMessage (s : TranscriptionState) (m : StreamMsg) : TranscriptionState :=
  if m.status = some "completed" then
    { s with isTranscribing := false, completed := true, streamOpen := false }
  else if truthyStr m.error then
    { s with error := m.error, isTranscribing := false, streamOpen := false }
  else if truthyNat m.chunk_index && truthyNat m.total_chunks then
    { s with chunks := s.chunks ++ [m.toChunk] }
  else s

/-- The full `onmessage` handler including the `try/catch` around
`JSON.parse`: a payload that fails to parse (`none`) only logs to the
console and leaves the state untouched. -/
def processRawMessage (s : TranscriptionState) (parsed : Option StreamMsg) :
    TranscriptionState :=
  match parsed with
  | none => s
  | some m => onMessage s m

/-- Handler `eventSource.onerror` from `page.tsx` (lines 156–171):
`readyStateClosed` is `eventSource.readyState === EventSource.CLOSED`.
When closed, the handler marks the session completed; otherwise it records
the generic connection error.  In both branches the connection is closed. -/
def onStreamError (readyStateClosed : Bool) (s : TranscriptionState) :
    TranscriptionState :=
  if readyStateClosed then
    { s with isTranscribing := false, completed := true, streamOpen := false }
  else
    { s with
        error := some "Connection error during transcription"
        isTranscribing := false
        streamOpen := false }

/-- A concrete chunk-result message used to exercise the message handler. -/
def dupMsg : StreamMsg :=
  { status := none
    error := none
    chunk_index := some 3
    total_chunks := some 5
    text := "again"
    segments := [] }

/-- A concrete message whose `chunk_index` is the falsy value `0`. -/
def zeroIdxMsg : StreamMsg :=
  { status := none
    error := none
    chunk_index := some 0
    total_chunks := some 4
    text := "dropped"
    segments := [] }

/-- One entry of the flattened segment view computed by
`TranscriptionDisplay` (`visibleSegments` array elements). -/
structure VisibleEntry where
  chunkIndex : Nat
  segmentIndex : Nat
  absoluteStartTime : ℚ
  absoluteEndTime : ℚ
  text : String
  isActive : Bool
deriving Repr, DecidableEq

/-- The entry pushed for one segment, with `isActive` computed exactly as
in the source: `absoluteStartTime <= currentTime && absoluteEndTime > currentTime`. -/
def mkEntry (ci si : Nat) (seg : Segment) (t : ℚ) : VisibleEntry :=
  { chunkIndex := ci
    segmentIndex := si
    absoluteStartTime := seg.start
    absoluteEndTime := seg.stop
    text := seg.text
    isActive := decide (seg.start ≤ t) && decide (seg.stop > t) }

/-- Inner `forEach` of `TranscriptionDisplay`: walk one chunk's segments
and push an entry when `absoluteStartTime <= currentTime`. -/
def segmentEntries (ci : Nat) (t : ℚ) : Nat → List Segment → List VisibleEntry
  | _, [] => []
  | si, seg :: rest =>
    if seg.start ≤ t then mkEntry ci si seg t :: segmentEntries ci t (si + 1) rest
    else segmentEntries ci t (si + 1) rest

/-- Outer `forEach` of `TranscriptionDisplay` over the chunk array. -/
def visibleSegmentsAux (t : ℚ) : Nat → List Chunk → List VisibleEntry
  | _, [] => []
  | ci, ch :: rest =>
    segmentEntries ci t 0 ch.segments ++ visibleSegmentsAux t (ci + 1) rest

/-- Array `visibleSegments` from `TranscriptionDisplay.tsx` (lines 48–78). -/
def visibleSegments (chunks : List Chunk) (t : ℚ) : List VisibleEntry :=
  visibleSegmentsAux t 0 chunks

/-- The `(chunkIndex, segmentIndex)` identity key of an entry (the
template string key in the source). -/
def entryKey (e : VisibleEntry) : Nat × Nat := (e.chunkIndex, e.segmentIndex)

/-- Value `activeKey` from `TranscriptionDisplay.tsx` (lines 81–89): the first
visible entry with `isActive`, else the last visible entry, else none. -/
def activeKey (chunks : List Chunk) (t : ℚ) : Option (Nat × Nat) :=
  let vs := visibleSegments chunks t
  match vs.find? (fun e => e.isActive) with
  | some e => some (entryKey e)
  | none => vs.getLast?.map entryKey

/-- Spec-side flattening (specification §4.2 step 1): all chunks' segments
in one sequence, each tagged with its owning chunk index and in-chunk
segment index, without any time filter (segment walk). -/
def flattenEntriesSeg (ci : Nat) (t : ℚ) : Nat → List Segment → List VisibleEntry
  | _, [] => []
  | si, seg :: rest => mkEntry ci si seg t :: flattenEntriesSeg ci t (si + 1) rest

/-- Spec-side flattening (specification §4.2 step 1): chunk walk. -/
def flattenEntriesAux (t : ℚ) : Nat → List Chunk → List VisibleEntry
  | _, [] => []
  | ci, ch :: rest =>
    flattenEntriesSeg ci t 0 ch.segments ++ flattenEntriesAux t (ci + 1) rest

/-- Spec-side filtered sequence (specification §4.2 step 2): flatten, then
keep exactly the entries with `segment.start <= currentTime`. -/
def specVisible (chunks : List Chunk) (t : ℚ) : List VisibleEntry :=
  (flattenEntriesAux t 0 chunks).filter (fun e => e.absoluteStartTime ≤ t)

/-- Spec-side active entry (specification §4.2 step 3): the first filtered
entry with `start <= currentTime < end`, else the last filtered entry. -/
def specActiveKey (chunks : List Chunk) (t : ℚ) : Option (Nat × Nat) :=
  let fs := specVisible chunks t
  match fs.find? (fun e => decide (e.absoluteStartTime ≤ t ∧ t < e.absoluteEndTime)) with
  | some e => some (entryKey e)
  | none => fs.getLast?.map entryKey

/-- The callback of `transcription.chunks.find(...)` in the notable-context
extraction effect: a chunk contains `currentTime` when it has at least one
segment and `firstSegment.start <= currentTime <= lastSegment.end`. -/
def chunkContains (t : ℚ) (ch : Chunk) : Bool :=
  match ch.segments with
  | [] => false
  | s0 :: rest =>
    decide (s0.start ≤ t) &&
      decide (t ≤ ((s0 :: rest).getLast (List.cons_ne_nil s0 rest)).stop)

/-- Call `transcription.chunks.find(...)` locating the chunk that contains the
current playback time. -/
def findCurrentChunk (chunks : List Chunk) (t : ℚ) : Option Chunk :=
  chunks.find? (chunkContains t)

/-- The notable-context extraction effect from the `Home` page: returns the
chunk the extractor is invoked with, or `none` when the effect bails out
(no chunks yet, audio paused, no chunk contains `currentTime`, or the
debounce `Math.abs(lastExtractedTime - chunkStartTime) < 1` suppresses the
call).  The empty-segments match arm is unreachable because
`findCurrentChunk` only returns chunks with a nonempty segment list. -/
def extractionTarget (chunks : List Chunk) (t : ℚ) (audioPaused : Bool)
    (lastExtractedTime : ℚ) : Option Chunk :=
  if chunks.isEmpty then none
  else if audioPaused then none
  else
    match findCurrentChunk chunks t with
    | none => none
    | some ch =>
      match ch.segments with
      | [] => none
      | s0 :: _ =>
        if |lastExtractedTime - s0.start| < 1 then none else some ch

/-- A concrete segment starting at 42.0 seconds. -/
def seg42 : Segment := { start := 42, stop := 100, text := "a claim" }

/-- A concrete chunk whose first segment starts at 42.0 seconds. -/
def c42 : Chunk :=
  { chunk_index := 1
    total_chunks := 5
    text := "a claim"
    segments := [seg42]
    error := none }

/-- Modelled from the spec: the Chunk Scheduler's index bookkeeping
(specification §3, §4.1).  The scheduler fields `transcribedIndices` and
`lastTranscribedIndex` of `TranscriptionState` are described by the
specification but their code is not among the sources, so this state
follows the specification's words.  `deliveredChunks` records every
delivered (0-based) chunk index in arrival order, duplicates included,
mirroring the append-only `chunks` collection. -/
structure SchedulerState where
  deliveredChunks : List Nat
  transcribedIndices : List Nat
  lastTranscribedIndex : Int
deriving Repr, DecidableEq

/-- Set-insertion into `transcribedIndices` (the specification declares it
a `Set<int>`): adding an index already present leaves it unchanged. -/
def addIndex (i : Nat) (l : List Nat) : List Nat :=
  if i ∈ l then l else i :: l

/-- Modelled from the spec: the scheduler's initial state (§4.1): empty,
`lastTranscribedIndex = -1`. -/
def schedulerInit : SchedulerState :=
  { deliveredChunks := [], transcribedIndices := [], lastTranscribedIndex := -1 }

/-- Modelled from the spec: handling of one *chunk result* stream event
(§4.1): normalize the 1-based `chunk_index` to a 0-based index, append the
chunk record, add the index to `transcribedIndices`, and set
`lastTranscribedIndex = max(lastTranscribedIndex, index)`. -/
def onChunkResult (s : SchedulerState) (chunkIndex : Nat) : SchedulerState :=
  let idx := chunkIndex - 1
  { deliveredChunks := s.deliveredChunks ++ [idx]
    transcribedIndices := addIndex idx s.transcribedIndices
    lastTranscribedIndex := max s.lastTranscribedIndex (idx : Int) }

/-- Largest element of an index set as an `Int`, or `-1` when empty. -/
def maxOrNeg1 : List Nat → Int
  | [] => -1
  | i :: rest => max (i : Int) (maxOrNeg1 rest)

/-- The scheduler state reached after a sequence of chunk-result events
carrying the given (1-based) chunk indices. -/
def runScheduler (events : List Nat) : SchedulerState :=
  events.foldl onChunkResult schedulerInit

/-- Modelled from the spec: the `onPlaybackTick` progressive trigger
(§4.1) is not among the sources.  This follows the specification's words:
fire when `lastTranscribedIndex != -1`,
`currentTime >= chunkDurationSeconds * (lastTranscribedIndex + 0.5)` and
`lastTranscribedIndex + 1 < totalChunks`, requesting the inclusive range
`[lastTranscribedIndex + 1, lastTranscribedIndex + 1]`; `none` otherwise. -/
def progressiveTrigger (lastTranscribedIndex : Int) (totalChunks : Nat)
    (chunkDurationSeconds currentTime : ℚ) : Option (Int × Int) :=
  if lastTranscribedIndex ≠ -1 ∧
      chunkDurationSeconds * ((lastTranscribedIndex : ℚ) + 1 / 2) ≤ currentTime ∧
      lastTranscribedIndex + 1 < (totalChunks : Int) then
    some (lastTranscribedIndex + 1, lastTranscribedIndex + 1)
  else none

/-- Research item lifecycle status (`ResearchItem.status` in `lib/api.ts`). -/
inductive ResearchStatus where
  | pending
  | researching
  | completed
  | error
deriving Repr, DecidableEq

/-- A research item (`ResearchItem` in `lib/api.ts`, restricted to the
fields the queue worker reads). -/
structure ResearchItem where
  id : Nat
  question : String
  timestamp : ℚ
  status : ResearchStatus
deriving Repr, DecidableEq

/-- Whether an item is awaiting research. -/
def isPending (it : ResearchItem) : Bool :=
  match it.status with
  | ResearchStatus.pending => true
  | _ => false

/-- Whether an item is currently being researched. -/
def isResearching (it : ResearchItem) : Bool :=
  match it.status with
  | ResearchStatus.researching => true
  | _ => false

/-- Modelled from the spec: the Research Queue state (§4.4) — the ordered,
append-only item collection plus the single `busy` guard — is not among
the sources. -/
structure ResearchQueue where
  items : List ResearchItem
  busy : Bool
deriving Repr, DecidableEq

/-- Number of items currently in status `researching`. -/
def countResearching (l : List ResearchItem) : Nat :=
  (l.filter isResearching).length

/-- Transition the first `pending` item, in array order, to `researching`,
leaving everything else in place. -/
def markFirstPending : List ResearchItem → List ResearchItem
  | [] => []
  | it :: rest =>
    if isPending it then { it with status := ResearchStatus.researching } :: rest
    else it :: markFirstPending rest

/-- Modelled from the spec: worker steps 1–3 (§4.4): if `busy`, do nothing;
otherwise scan the collection in array order for the first `pending` item;
if one exists, set `busy = true` and transition it to `researching`. -/
def startNextResearch (q : ResearchQueue) : ResearchQueue :=
  if q.busy then q
  else if q.items.any isPending then
    { items := markFirstPending q.items, busy := true }
  else q

/-- Settling one item when its verification call returns: `completed` on
success, `error` on failure. -/
def settleItem (ok : Bool) (it : ResearchItem) : ResearchItem :=
  if isResearching it then
    { it with
        status := if ok then ResearchStatus.completed else ResearchStatus.error }
  else it

/-- Modelled from the spec: worker steps 5–6 (§4.4): the verification call
settles, moving the `researching` item to a terminal status, and the
`busy` guard is released. -/
def settleResearch (ok : Bool) (q : ResearchQueue) : ResearchQueue :=
  { items := q.items.map (settleItem ok), busy := false }

/-- Appending one freshly created item (extraction or manual selection,
always created `pending`) to the collection (§4.3). -/
def appendResearchItem (it : ResearchItem) (q : ResearchQueue) : ResearchQueue :=
  { q with items := q.items ++ [it] }

/-- The Research Queue states reachable from the empty queue through item
appends, worker starts and verification settlements. -/
inductive QueueReachable : ResearchQueue → Prop where
  | init : QueueReachable ⟨[], false⟩
  | append {q : ResearchQueue} {it : ResearchItem} :
      QueueReachable q → it.status = ResearchStatus.pending →
      QueueReachable (appendResearchItem it q)
  | start {q : ResearchQueue} :
      QueueReachable q → QueueReachable (startNextResearch q)
  | settle {q : ResearchQueue} {ok : Bool} :
      QueueReachable q → QueueReachable (settleResearch ok q)

/-- The serialization invariant of the Research Queue: at most one item is
`researching`, and none is while the worker is idle. -/
def QueueInv (q : ResearchQueue) : Prop :=
  countResearching q.items ≤ 1 ∧
  (q.busy = false → countResearching q.items = 0)

/-- A concrete pending research item. -/
def demoPending : ResearchItem :=
  { id := 0, question := "claim A", timestamp := 0, status := ResearchStatus.pending }

/-- A second concrete pending research item with a later timestamp. -/
def demoPending2 : ResearchItem :=
  { id := 1, question := "claim B", timestamp := 5, status := ResearchStatus.pending }

/-- A concrete reachable queue with one item under research. -/
def demoQueue : ResearchQueue :=
  startNextResearch (appendResearchItem demoPending ⟨[], false⟩)

/-- C1: in a state where the transcription stream is already open
(`isTranscribing = true`), `startTranscription` is a complete no-op: the
state is returned unchanged and no connection is opened. -/
theorem startTranscription_noop_while_transcribing
    (filename : String) (s : TranscriptionState)
    (h : s.isTranscribing = true) :
    startTranscription filename s = (s, false) := by
  simp [startTranscription, h]

/-- Witness for C1 at a concrete in-flight state and filename. -/
theorem startTranscription_noop_witness :
    startTranscription "episode.mp3"
        ⟨[], none, true, false, true⟩ = (⟨[], none, true, false, true⟩, false) :=
  startTranscription_noop_while_transcribing "episode.mp3" _ rfl

/-- C4 counterexample: a transport error with `readyState = CLOSED` does
NOT set the generic connection error — the handler marks the session
completed instead, leaving `error` as `none`. -/
theorem onStreamError_closed_no_error :
    (onStreamError true ⟨[], none, true, false, true⟩).error
        ≠ some "Connection error during transcription" ∧
    (onStreamError true ⟨[], none, true, false, true⟩).completed = true := by
  constructor <;> decide

/-- C4 (amended): on a transport error the handler branches on the stream's
ready state: with `readyState = CLOSED` it marks the transcription completed
without touching `error`; otherwise it sets the generic connection error.
In both cases `isTranscribing` becomes false and the connection is released. -/
theorem onStreamError_spec (s : TranscriptionState) :
    onStreamError true s
      = { s with isTranscribing := false, completed := true, streamOpen := false } ∧
    onStreamError false s
      = { s with
            error := some "Connection error during transcription"
            isTranscribing := false
            streamOpen := false } := by
  constructor <;> simp [onStreamError]

/-- C7: a chunk-result event (not a completed-status event, no truthy error
field, both `chunk_index` and `total_chunks` truthy) appends exactly one
chunk record at the end of `chunks`, leaving every previously received
chunk — and all other state fields — unchanged.  Since nothing is filtered,
re-delivery of an index already present appends a second record. -/
theorem onMessage_appends_chunk (s : TranscriptionState) (m : StreamMsg)
    (hstatus : m.status ≠ some "completed")
    (herr : truthyStr m.error = false)
    (hidx : truthyNat m.chunk_index = true)
    (htot : truthyNat m.total_chunks = true) :
    onMessage s m = { s with chunks := s.chunks ++ [m.toChunk] } := by
  simp [onMessage, hstatus, herr, hidx, htot]

/-- Witness for C7: delivering `dupMsg` to a state that already holds a
chunk with the same index appends a second copy after the first. -/
theorem onMessage_appends_chunk_witness :
    onMessage ⟨[dupMsg.toChunk], none, true, false, true⟩ dupMsg
      = ⟨[dupMsg.toChunk, dupMsg.toChunk], none, true, false, true⟩ := by
  have h := onMessage_appends_chunk ⟨[dupMsg.toChunk], none, true, false, true⟩
    dupMsg (by decide) (by decide) (by decide) (by decide)
  simpa using h

/-- C9: for a message that is neither a completed-status event nor an error
event, a chunk is appended precisely when both `chunk_index` and
`total_chunks` are truthy; otherwise (either field `0` or missing) the
message is silently dropped and the state is unchanged. -/
theorem onMessage_append_iff_truthy (s : TranscriptionState) (m : StreamMsg)
    (hstatus : m.status ≠ some "completed")
    (herr : truthyStr m.error = false) :
    onMessage s m
      = if truthyNat m.chunk_index && truthyNat m.total_chunks then
          { s with chunks := s.chunks ++ [m.toChunk] }
        else s := by
  simp [onMessage, hstatus, herr]

/-- Witness for C9: a message carrying `chunk_index = 0` leaves a concrete
state unchanged. -/
theorem onMessage_append_iff_truthy_witness :
    onMessage ⟨[], none, true, false, true⟩ zeroIdxMsg
      = ⟨[], none, true, false, true⟩ := by
  have h := onMessage_append_iff_truthy ⟨[], none, true, false, true⟩
    zeroIdxMsg (by decide) (by decide)
  simpa using h

/-- C10: a stream message whose payload fails to parse as JSON leaves the
entire transcription state unchanged: no chunk appended, no error recorded,
`isTranscribing` and the open connection are exactly as before. -/
theorem processRawMessage_parse_failure_noop (s : TranscriptionState) :
    processRawMessage s none = s ∧
    (processRawMessage s none).isTranscribing = s.isTranscribing ∧
    (processRawMessage s none).streamOpen = s.streamOpen :=
  ⟨rfl, rfl, rfl⟩

/-- C8: when the extraction effect runs while playing with an active chunk
whose first segment starts at `s0.start`, the extractor call is skipped
precisely when `|lastExtractedTime - chunkStart| < 1.0`; otherwise it
proceeds with that chunk. -/
theorem extraction_debounce (chunks : List Chunk) (t lastT : ℚ)
    (ch : Chunk) (s0 : Segment) (rest : List Segment)
    (hne : chunks.isEmpty = false)
    (hfind : findCurrentChunk chunks t = some ch)
    (hsegs : ch.segments = s0 :: rest) :
    extractionTarget chunks t false lastT
      = if |lastT - s0.start| < 1 then none else some ch := by
  simp [extractionTarget, hne, hfind, hsegs]

/-- Witness for C8: with the active chunk starting at 42.0, extraction is
suppressed at `lastExtractedTime = 41.5` and proceeds at
`lastExtractedTime = 40.0`. -/
theorem extraction_debounce_witness :
    extractionTarget [c42] 50 false (83 / 2) = none ∧
    extractionTarget [c42] 50 false 40 = some c42 := by
  have h1 := extraction_debounce [c42] 50 (83 / 2) c42 seg42 [] rfl (by decide) rfl
  have h2 := extraction_debounce [c42] 50 40 c42 seg42 [] rfl (by decide) rfl
  rw [h1, h2]
  constructor
  · rw [if_pos (by norm_num [seg42, abs_lt])]
  · rw [if_neg (by norm_num [seg42, abs_lt])]

/-- Helper: `find?` only depends on the predicate's values on the list. -/
theorem find?_congr {α : Type} {p q : α → Bool} :
    ∀ {l : List α}, (∀ a ∈ l, p a = q a) → l.find? p = l.find? q
  | [], _ => rfl
  | a :: l, h => by
    have ha := h a (List.mem_cons_self a l)
    by_cases hpa : p a = true
    · rw [List.find?_cons_of_pos _ hpa, List.find?_cons_of_pos _ (ha ▸ hpa)]
    · have hpa' : p a = false := by simpa using hpa
      rw [List.find?_cons_of_neg _ (by simp [hpa']),
        List.find?_cons_of_neg _ (by simp [ha ▸ hpa'])]
      exact find?_congr fun a ha' => h a (List.mem_cons_of_mem _ ha')

/-- The one-pass segment walk of the source equals the spec's
flatten-then-filter on one chunk's segments. -/
theorem segmentEntries_eq_filter (ci : Nat) (t : ℚ) :
    ∀ (si : Nat) (segs : List Segment),
      segmentEntries ci t si segs
        = (flattenEntriesSeg ci t si segs).filter (fun e => e.absoluteStartTime ≤ t)
  | _, [] => rfl
  | si, seg :: rest => by
    by_cases h : seg.start ≤ t
    · simp only [segmentEntries, flattenEntriesSeg, if_pos h, List.filter_cons]
      rw [if_pos (by simpa [mkEntry] using h)]
      rw [segmentEntries_eq_filter ci t (si + 1) rest]
    · simp only [segmentEntries, flattenEntriesSeg, if_neg h, List.filter_cons]
      rw [if_neg (by simpa [mkEntry] using h)]
      rw [segmentEntries_eq_filter ci t (si + 1) rest]

/-- The one-pass chunk walk of the source equals the spec's
flatten-then-filter. -/
theorem visibleSegmentsAux_eq_filter (t : ℚ) :
    ∀ (ci : Nat) (chunks : List Chunk),
      visibleSegmentsAux t ci chunks
        = (flattenEntriesAux t ci chunks).filter (fun e => e.absoluteStartTime ≤ t)
  | _, [] => rfl
  | ci, ch :: rest => by
    simp only [visibleSegmentsAux, flattenEntriesAux, List.filter_append]
    rw [segmentEntries_eq_filter, visibleSegmentsAux_eq_filter t (ci + 1) rest]

/-- Every flattened entry's `isActive` bit agrees with the spec's
`start <= currentTime < end` predicate on its own fields (segment walk). -/
theorem flattenEntriesSeg_isActive (ci : Nat) (t : ℚ) :
    ∀ (si : Nat) (segs : List Segment), ∀ e ∈ flattenEntriesSeg ci t si segs,
      e.isActive = decide (e.absoluteStartTime ≤ t ∧ t < e.absoluteEndTime)
  | _, [], _, h => absurd h (List.not_mem_nil _)
  | si, seg :: rest, e, h => by
    rcases List.mem_cons.mp h with he | he
    · subst he
      simp [mkEntry, Bool.decide_and, decide_eq_decide]
    · exact flattenEntriesSeg_isActive ci t (si + 1) rest e he

/-- Every flattened entry's `isActive` bit agrees with the spec's
predicate (chunk walk). -/
theorem flattenEntriesAux_isActive (t : ℚ) :
    ∀ (ci : Nat) (chunks : List Chunk), ∀ e ∈ flattenEntriesAux t ci chunks,
      e.isActive = decide (e.absoluteStartTime ≤ t ∧ t < e.absoluteEndTime)
  | _, [], _, h => absurd h (List.not_mem_nil _)
  | ci, ch :: rest, e, h => by
    rcases List.mem_append.mp h with he | he
    · exact flattenEntriesSeg_isActive ci t 0 ch.segments e he
    · exact flattenEntriesAux_isActive t (ci + 1) rest e he

/-- C6: for every chunk list and current time, the mapper's filtered
sequence is exactly the flattened entries with `start <= currentTime` in
chunk-then-segment order; the active entry is the first filtered entry
with `start <= currentTime < end`, falling back to the last filtered
entry, and there is no active entry exactly when the filtered sequence is
empty. -/
theorem activeWindowMapper_spec (chunks : List Chunk) (t : ℚ) :
    visibleSegments chunks t = specVisible chunks t ∧
    activeKey chunks t = specActiveKey chunks t ∧
    (activeKey chunks t = none ↔ visibleSegments chunks t = []) := by
  have hvs : visibleSegments chunks t = specVisible chunks t :=
    visibleSegmentsAux_eq_filter t 0 chunks
  have hfind :
      (visibleSegments chunks t).find? (fun e => e.isActive)
        = (specVisible chunks t).find?
            (fun e => decide (e.absoluteStartTime ≤ t ∧ t < e.absoluteEndTime)) := by
    rw [hvs]
    exact find?_congr fun e he =>
      flattenEntriesAux_isActive t 0 chunks e (List.mem_filter.mp he).1
  refine ⟨hvs, ?_, ?_⟩
  · simp only [activeKey, specActiveKey]
    rw [hfind, hvs]
  · simp only [activeKey]
    rw [hfind, hvs]
    cases hf : (specVisible chunks t).find?
        (fun e => decide (e.absoluteStartTime ≤ t ∧ t < e.absoluteEndTime)) with
    | some e =>
      have hne : specVisible chunks t ≠ [] :=
        List.ne_nil_of_mem (List.mem_of_find?_eq_some hf)
      simp [hne]
    | none =>
      simp [Option.map_eq_none', List.getLast?_eq_none_iff]

/-- Helper: every member of an index list is bounded by `maxOrNeg1`. -/
theorem mem_le_maxOrNeg1 : ∀ {i : Nat} {l : List Nat}, i ∈ l →
    (i : Int) ≤ maxOrNeg1 l
  | _, _ :: rest, h => by
    rcases List.mem_cons.mp h with he | he
    · subst he; exact le_max_left _ _
    · exact le_trans (mem_le_maxOrNeg1 he) (le_max_right _ _)

/-- Helper: one chunk-result event preserves the index-set invariant. -/
theorem onChunkResult_inv (s : SchedulerState) (c : Nat)
    (h1 : s.transcribedIndices.Nodup)
    (h2 : s.lastTranscribedIndex = maxOrNeg1 s.transcribedIndices) :
    (onChunkResult s c).transcribedIndices.Nodup ∧
    (onChunkResult s c).lastTranscribedIndex
      = maxOrNeg1 (onChunkResult s c).transcribedIndices := by
  simp only [onChunkResult, addIndex]
  by_cases hm : (c - 1) ∈ s.transcribedIndices
  · simp only [if_pos hm]
    exact ⟨h1, by rw [h2]; exact max_eq_left (mem_le_maxOrNeg1 hm)⟩
  · simp only [if_neg hm]
    refine ⟨List.nodup_cons.mpr ⟨hm, h1⟩, ?_⟩
    show max s.lastTranscribedIndex _ = max _ (maxOrNeg1 s.transcribedIndices)
    rw [h2, max_comm]

/-- C5: after any sequence of chunk-result events — duplicate deliveries of
the same `chunk_index` included — `transcribedIndices` has no duplicate
entries and `lastTranscribedIndex` equals the maximum of
`transcribedIndices`, or `-1` when the set is empty. -/
theorem scheduler_indices_invariant (events : List Nat) :
    (runScheduler events).transcribedIndices.Nodup ∧
    (runScheduler events).lastTranscribedIndex
      = maxOrNeg1 (runScheduler events).transcribedIndices ∧
    ((runScheduler events).transcribedIndices = [] →
      (runScheduler events).lastTranscribedIndex = -1) := by
  have key : ∀ (evs : List Nat) (s : SchedulerState),
      s.transcribedIndices.Nodup →
      s.lastTranscribedIndex = maxOrNeg1 s.transcribedIndices →
      (evs.foldl onChunkResult s).transcribedIndices.Nodup ∧
      (evs.foldl onChunkResult s).lastTranscribedIndex
        = maxOrNeg1 (evs.foldl onChunkResult s).transcribedIndices := by
    intro evs
    induction evs with
    | nil => exact fun s h1 h2 => ⟨h1, h2⟩
    | cons c rest ih =>
      intro s h1 h2
      have h := onChunkResult_inv s c h1 h2
      exact ih (onChunkResult s c) h.1 h.2
  have h := key events schedulerInit List.nodup_nil rfl
  simp only [runScheduler]
  refine ⟨h.1, h.2, fun he => ?_⟩
  rw [h.2, he]
  rfl

/-- C3: the progressive trigger requests exactly the inclusive range
`[lastTranscribedIndex + 1, lastTranscribedIndex + 1]` when
`lastTranscribedIndex != -1`,
`currentTime >= chunkDurationSeconds * (lastTranscribedIndex + 0.5)` and
`lastTranscribedIndex + 1 < totalChunks`, and stays silent otherwise; with
`chunkDurationSeconds = 120`, `lastTranscribedIndex = 1`,
`totalChunks = 5` it does not fire at `currentTime = 179` and requests
`[2, 2]` at `currentTime = 180`. -/
theorem progressiveTrigger_spec (l : Int) (n : Nat) (d t : ℚ) :
    (progressiveTrigger l n d t
      = if l ≠ -1 ∧ d * ((l : ℚ) + 1 / 2) ≤ t ∧ l + 1 < (n : Int) then
          some (l + 1, l + 1)
        else none) ∧
    progressiveTrigger 1 5 120 179 = none ∧
    progressiveTrigger 1 5 120 180 = some (2, 2) := by
  refine ⟨rfl, ?_, ?_⟩
  · rw [progressiveTrigger, if_neg (by norm_num)]
  · rw [progressiveTrigger, if_pos (by norm_num)]
    norm_num

/-- Helper: `countResearching` distributes over list append. -/
theorem countResearching_append (l1 l2 : List ResearchItem) :
    countResearching (l1 ++ l2) = countResearching l1 + countResearching l2 := by
  simp [countResearching, List.filter_append]

/-- Helper: `countResearching` on a cons cell. -/
theorem countResearching_cons (a : ResearchItem) (l : List ResearchItem) :
    countResearching (a :: l)
      = (if isResearching a then 1 else 0) + countResearching l := by
  by_cases h : isResearching a <;>
    simp [countResearching, List.filter_cons, h, Nat.add_comm]

/-- Helper: a pending item is not researching. -/
theorem not_researching_of_pending {it : ResearchItem}
    (h : isPending it = true) : isResearching it = false := by
  obtain ⟨i, q, ts, st⟩ := it
  cases st <;> simp [isPending, isResearching] at h ⊢

/-- Helper: marking the first pending item adds at most one researching
item. -/
theorem countResearching_markFirstPending (l : List ResearchItem) :
    countResearching (markFirstPending l) ≤ countResearching l + 1 := by
  induction l with
  | nil => simp [markFirstPending]
  | cons it rest ih =>
    by_cases hp : isPending it = true
    · simp only [markFirstPending, if_pos hp]
      rw [countResearching_cons, countResearching_cons,
        not_researching_of_pending hp]
      have h1 : isResearching { it with status := ResearchStatus.researching }
          = true := rfl
      rw [h1]
      simp
      omega
    · simp only [markFirstPending, if_neg hp]
      rw [countResearching_cons, countResearching_cons, Nat.add_assoc]
      exact Nat.add_le_add_left ih _

/-- Helper: a settled item is never researching. -/
theorem isResearching_settleItem (ok : Bool) (it : ResearchItem) :
    isResearching (settleItem ok it) = false := by
  by_cases h : isResearching it = true
  · simp only [settleItem, if_pos h]
    cases ok <;> rfl
  · simp only [settleItem, if_neg h]
    simpa using h

/-- Helper: after a settlement no item is researching. -/
theorem countResearching_settle (ok : Bool) (l : List ResearchItem) :
    countResearching (l.map (settleItem ok)) = 0 := by
  induction l with
  | nil => rfl
  | cons it rest ih =>
    rw [List.map_cons, countResearching_cons, isResearching_settleItem, ih]
    rfl

/-- Helper: the serialization invariant holds in every reachable queue
state. -/
theorem queueInv_reachable : ∀ q : ResearchQueue, QueueReachable q → QueueInv q := by
  intro q h
  induction h with
  | init => exact ⟨Nat.zero_le 1, fun _ => rfl⟩
  | @append q' it hq hpend ih =>
    have hit : isResearching it = false := by
      simp [isResearching, hpend]
    have hcount : countResearching (q'.items ++ [it]) = countResearching q'.items := by
      rw [countResearching_append, countResearching_cons, hit]
      rfl
    exact ⟨by simpa [appendResearchItem, hcount] using ih.1,
      fun hb => by simpa [appendResearchItem, hcount] using ih.2 hb⟩
  | @start q' hq ih =>
    by_cases hb : q'.busy = true
    · simpa [startNextResearch, hb] using ih
    · have hb' : q'.busy = false := by simpa using hb
      have hzero := ih.2 hb'
      by_cases hany : q'.items.any isPending = true
      · refine ⟨?_, ?_⟩ <;> simp only [startNextResearch, hb', hany, if_false,
          if_true, Bool.false_eq_true]
        · calc countResearching (markFirstPending q'.items)
              ≤ countResearching q'.items + 1 :=
                countResearching_markFirstPending q'.items
            _ = 1 := by rw [hzero]
        · intro hcontra
          exact absurd hcontra (by simp)
      · have hany' : q'.items.any isPending = false := by simpa using hany
        simpa [startNextResearch, hb', hany'] using ih
  | @settle q' ok hq ih =>
    exact ⟨by simp [settleResearch, countResearching_settle],
      fun _ => by simp [settleResearch, countResearching_settle]⟩

/-- C2: in every reachable Research Queue state at most one item has
status `researching`; and while some item is researching, appending any
batch of new pending items cannot start another one — the worker step is
the identity until the researching item leaves that status. -/
theorem researchQueue_serial (q : ResearchQueue) (h : QueueReachable q) :
    countResearching q.items ≤ 1 ∧
    (∀ newItems : List ResearchItem, 0 < countResearching q.items →
      startNextResearch { q with items := q.items ++ newItems }
        = { q with items := q.items ++ newItems }) := by
  have hi := queueInv_reachable q h
  refine ⟨hi.1, fun newItems hpos => ?_⟩
  have hb : q.busy = true := by
    by_cases hb' : q.busy = true
    · exact hb'
    · have := hi.2 (by simpa using hb')
      omega
  simp [startNextResearch, hb]

/-- Witness for C2: a concrete reachable queue with one researching item;
appending a second pending item (with a later timestamp) does not start
it. -/
theorem researchQueue_serial_witness :
    countResearching demoQueue.items ≤ 1 ∧
    startNextResearch { demoQueue with items := demoQueue.items ++ [demoPending2] }
      = { demoQueue with items := demoQueue.items ++ [demoPending2] } := by
  have h := researchQueue_serial demoQueue
    (QueueReachable.start (QueueReachable.append QueueReachable.init rfl))
  exact ⟨h.1, h.2 [demoPending2] (by decide)⟩

end Podcite
